import Mathlib

/-!
Verification of the warscroll generator core (src/app/warscroll.js).

The JavaScript program is shallowly embedded below. JS numbers (IEEE
doubles) are modelled as exact rationals; this is faithful on the small
decimal values the program manipulates. Fallible parsing is modelled with
Option (none = NaN). DOM containers are modelled as lists of children,
and canvas drawing as a list of drawing operations. Math.cos / Math.sin
are modelled as abstract function parameters (cosD, sinD, taking degrees),
since their values are irrational; no claim depends on concrete trig
values.
-/

-- The Batteries rational primitives are irreducible by default, which
-- stops the decide tactic from evaluating concrete rational arithmetic;
-- making them semireducible again restores evaluation by the kernel.
unseal Rat.add Rat.mul Rat.sub Rat.inv Rat.ofScientific

namespace Warscroll

/-! ## JS numeric primitives -/

/-- Math.round: rounds half up (toward positive infinity), as in JS. -/
def jsRound (q : ℚ) : ℤ := ⌊q + 1/2⌋

/-- Truncation toward zero, as used by the JS % operator. -/
def ratTrunc (q : ℚ) : ℤ := if 0 ≤ q then ⌊q⌋ else -⌊-q⌋

/-- The JS remainder operator a % b (sign follows the dividend). -/
def jsMod (a b : ℚ) : ℚ := a - b * (ratTrunc (a / b) : ℚ)

/-! ## Decimal rendering of numbers (JS String(n) for finite decimals) -/

def digitChar : ℕ → Char
  | 0 => '0'
  | 1 => '1'
  | 2 => '2'
  | 3 => '3'
  | 4 => '4'
  | 5 => '5'
  | 6 => '6'
  | 7 => '7'
  | 8 => '8'
  | 9 => '9'
  | _ => '*'

/-- Decimal digits, most significant first; structural recursion on a
fuel argument so that the kernel can evaluate it (n + 1 units of fuel
always suffice, since n / 10 < n). -/
def natToDigitsAux : ℕ → ℕ → List Char
  | 0, _ => []
  | fuel + 1, n =>
    if n < 10 then [digitChar n]
    else natToDigitsAux fuel (n / 10) ++ [digitChar (n % 10)]

/-- Decimal digits of a natural number, most significant first. -/
def natToDigits (n : ℕ) : List Char := natToDigitsAux (n + 1) n

/-- Fractional decimal digits of q (expected 0 ≤ q < 1), emitted until the
remainder is zero or the fuel runs out. A JS double always has a finite
decimal expansion; the fuel q.den suffices for every value whose
denominator divides a power of ten (hence for all doubles in range). -/
def fracDigitsAux : ℕ → ℚ → List Char
  | 0, _ => []
  | fuel + 1, q =>
    if q = 0 then []
    else
      let d : ℤ := ⌊q * 10⌋
      digitChar d.toNat :: fracDigitsAux fuel (q * 10 - (d : ℚ))

/-- Decimal rendering of a non-negative rational: integer digits, then a
dot and the fractional digits when the value is not integral. Mirrors the
shortest-round-trip String(n) of JS on finite decimals (no trailing
zeros, no exponent forms). -/
def nnRatToChars (q : ℚ) : List Char :=
  natToDigits (⌊q⌋.toNat) ++
    (if q.den = 1 then [] else '.' :: fracDigitsAux q.den (q - (⌊q⌋ : ℚ)))

def jsNumToChars (q : ℚ) : List Char :=
  if q < 0 then '-' :: nnRatToChars (-q) else nnRatToChars q

def jsNumToString (q : ℚ) : String := String.mk (jsNumToChars q)

/-! ## String parsing (JS parseInt and Number) -/

def isWsChar (c : Char) : Bool := c = ' ' ∨ c = '\t' ∨ c = '\n' ∨ c = '\r'

/-- Value of a list of decimal digit characters. -/
def digitsVal (cs : List Char) : ℕ :=
  cs.foldl (fun a c => 10 * a + (c.toNat - 48)) 0

/-- parseInt(s, 10): skip leading whitespace, optional sign, then the
longest prefix of decimal digits; NaN (none) when there is no digit. -/
def parseIntChars (cs : List Char) : Option ℤ :=
  match cs.dropWhile isWsChar with
  | [] => none
  | c :: rest =>
    if c = '-' then
      let ds := rest.takeWhile Char.isDigit
      if ds = [] then none else some (-(digitsVal ds : ℤ))
    else if c = '+' then
      let ds := rest.takeWhile Char.isDigit
      if ds = [] then none else some (digitsVal ds : ℤ)
    else
      let ds := (c :: rest).takeWhile Char.isDigit
      if ds = [] then none else some (digitsVal ds : ℤ)

def parseIntStr (s : String) : Option ℤ := parseIntChars s.data

/-- Plain decimal literal (digits, optional dot and digits). Used by the
Number() conversion; exponent forms do not occur in the numeric inputs
this program reads. -/
def decCharsToRat (cs : List Char) : Option ℚ :=
  let ip := cs.takeWhile Char.isDigit
  match cs.dropWhile Char.isDigit with
  | [] => if ip = [] then none else some (digitsVal ip : ℚ)
  | c :: fp =>
    if c = '.' ∧ fp.all Char.isDigit ∧ (ip ≠ [] ∨ fp ≠ []) then
      some ((digitsVal ip : ℚ) + (digitsVal fp : ℚ) / (10 ^ fp.length : ℚ))
    else none

/-- JS Number(string): trims whitespace, the empty string is 0, otherwise
a signed decimal literal, NaN (none) on anything else. -/
def jsNumberOfString (s : String) : Option ℚ :=
  match ((s.data.dropWhile isWsChar).reverse.dropWhile isWsChar).reverse with
  | [] => some 0
  | c :: rest =>
    if c = '-' then (decCharsToRat rest).map (fun q => -q)
    else if c = '+' then decCharsToRat rest
    else decCharsToRat (c :: rest)

/-! ## JS values and the stat formatter -/

inductive StatKey
  | move
  | health
  | save
  | control
deriving DecidableEq

/-- A JS value as passed around for stats: null/undefined, a string, or a
number. -/
inductive JSVal
  | null
  | str (s : String)
  | num (q : ℚ)
deriving DecidableEq

/-- Number(rawValue) of the embedding (null is 0; never reached behind the
null guard in the formatter). -/
def jsNumber : JSVal → Option ℚ
  | .null => some 0
  | .num q => some q
  | .str s => jsNumberOfString s

/-- parseInt(rawValue, 10): a number is first converted to its string. -/
def jsParseInt : JSVal → Option ℤ
  | .null => none
  | .num q => parseIntChars (jsNumToChars q)
  | .str s => parseIntStr s

/-- s.replace(/\.0+$/, ""): drop a trailing dot-then-zeros suffix.
Computed on the reversed character list: the leading run of zeros is
removed together with the dot exactly when the dot immediately precedes
that whole run. -/
def stripDotZerosRev (cs : List Char) : List Char :=
  let zs := cs.takeWhile (fun c => c = '0')
  match cs.dropWhile (fun c => c = '0') with
  | [] => cs
  | c :: t => if zs ≠ [] ∧ c = '.' then t else cs

def stripDotZeros (s : String) : String :=
  String.mk (stripDotZerosRev s.data.reverse).reverse

/-- formatStatForDisplay from src/app/warscroll.js (lines 85-104):
move renders as inches with a trailing double quote, save with a trailing
plus, health and control as a plain integer; null or empty input gives
the empty string, as do NaN and negative parses. -/
def formatStatForDisplay (key : StatKey) (rawValue : JSVal) : String :=
  if rawValue = JSVal.null ∨ rawValue = JSVal.str "" then ""
  else
    match key with
    | .move =>
      match jsNumber rawValue with
      | none => ""
      | some n =>
        if n < 0 then ""
        else
          -- Trim trailing .0 (the n % 1 === 0 test of the source)
          let s := if jsMod n 1 = 0 then jsNumToString n
                   else stripDotZeros (jsNumToString n)
          s ++ "\""
    | .save =>
      match jsParseInt rawValue with
      | none => ""
      | some n => if n < 0 then "" else jsNumToString (n : ℚ) ++ "+"
    | _ =>
      -- health, control
      match jsParseInt rawValue with
      | none => ""
      | some n => if n < 0 then "" else jsNumToString (n : ℚ)

/-! ## Session stat state (the stats object and makeStatInput oninput) -/

structure Stats where
  move : JSVal
  health : JSVal
  save : JSVal
  control : JSVal
deriving DecidableEq

def Stats.get (s : Stats) : StatKey → JSVal
  | .move => s.move
  | .health => s.health
  | .save => s.save
  | .control => s.control

def Stats.set (s : Stats) (k : StatKey) (v : JSVal) : Stats :=
  match k with
  | .move => { s with move := v }
  | .health => { s with health := v }
  | .save => { s with save := v }
  | .control => { s with control := v }

/-- Line 384: const stats = a record of four empty strings. -/
def initialStats : Stats :=
  { move := .str "", health := .str "", save := .str "", control := .str "" }

/-- The oninput handler of makeStatInput (lines 446-478): empty input is
kept as the empty string; save parses as an integer and is clamped into
[1,6]; the other three (including move) parse as an integer clamped to be
at least 0; NaN parses store the empty string. Math.floor is applied to
the (already integral) clamped value, as in the source. -/
def statInputUpdate (key : StatKey) (v : String) : JSVal :=
  if v = "" then JSVal.str ""
  else
    match key with
    | .save =>
      match parseIntStr v with
      | none => JSVal.str ""
      | some n =>
        let n := if n < 1 then 1 else n
        let n := if n > 6 then 6 else n
        JSVal.num ((⌊(n : ℚ)⌋ : ℤ) : ℚ)
    | _ =>
      match parseIntStr v with
      | none => JSVal.str ""
      | some n =>
        let n := if n < 0 then 0 else n
        JSVal.num ((⌊(n : ℚ)⌋ : ℤ) : ℚ)

/-- One input event: the stat field of the given key is overwritten with
the normalized value (the overlay re-render does not touch the stats). -/
def statStep (s : Stats) (ev : StatKey × String) : Stats :=
  Stats.set s ev.1 (statInputUpdate ev.1 ev.2)

/-! ## Badge geometry

The circle center and radius are computed by the same formula at both
source sites: drawWarscrollCanvas (lines 148-150) and renderQuarterLabels
(lines 269-271). -/

structure BadgeGeom where
  cx : ℤ
  cy : ℤ
  circleRadius : ℤ
deriving DecidableEq

def badgeGeom (width height : ℚ) : BadgeGeom :=
  { cx := jsRound (width * 0.157)
    cy := jsRound (height * 0.105)
    circleRadius := jsRound (min width height * 0.12) }

/-- toFixed(2): round to two decimals and render with exactly two
fractional digits. -/
def jsToFixed2 (q : ℚ) : String :=
  let m : ℤ := jsRound (q * 100)
  let a : ℕ := m.natAbs
  let fp := if a % 100 < 10 then "0" ++ String.mk (natToDigits (a % 100))
            else String.mk (natToDigits (a % 100))
  (if m < 0 then "-" else "") ++ String.mk (natToDigits (a / 100)) ++ "." ++ fp

/-- The angular delta of arcPathD, normalized into [0, 360) by
((endAngle - startAngle) % 360 + 360) % 360 (line 240). -/
def arcDelta (startAngle endAngle : ℚ) : ℚ :=
  jsMod (jsMod (endAngle - startAngle) 360 + 360) 360

structure ArcPath where
  sx : ℚ
  sy : ℚ
  ex : ℚ
  ey : ℚ
  largeArcFlag : ℕ
  sweepFlag : ℕ
  d : String
deriving DecidableEq

section Trig

variable (cosD sinD : ℚ → ℚ)

/-- polarToCartesian (lines 227-232): x = cx + r cos, y = cy + r sin.
cosD and sinD stand for Math.cos and Math.sin composed with the
degree-to-radian conversion done at each call site. -/
def polarToCartesian (cx cy radius angleDeg : ℚ) : ℚ × ℚ :=
  (cx + radius * cosD angleDeg, cy + radius * sinD angleDeg)

/-- arcPathD (lines 236-245): endpoints, the large-arc and sweep flags
computed from the normalized delta, and the assembled path string. -/
def arcPathD (cx cy radius startAngle endAngle : ℚ) : ArcPath :=
  let start := polarToCartesian cosD sinD cx cy radius startAngle
  let stop := polarToCartesian cosD sinD cx cy radius endAngle
  let delta := arcDelta startAngle endAngle
  let largeArcFlag : ℕ := if delta > 180 then 1 else 0
  let sweepFlag : ℕ := if delta > 0 ∧ delta ≤ 180 then 1 else 0
  { sx := start.1, sy := start.2, ex := stop.1, ey := stop.2
    largeArcFlag := largeArcFlag, sweepFlag := sweepFlag
    d := "M " ++ jsToFixed2 start.1 ++ " " ++ jsToFixed2 start.2 ++ " A "
      ++ jsNumToString radius ++ " " ++ jsNumToString radius ++ " 0 "
      ++ jsNumToString largeArcFlag ++ " " ++ jsNumToString sweepFlag ++ " "
      ++ jsToFixed2 stop.1 ++ " " ++ jsToFixed2 stop.2 }

end Trig

/-! ## The SVG overlay (renderQuarterLabels, lines 250-362) -/

structure Quarters where
  top : String
  left : String
  right : String
  bottom : String

structure QuarterSpec where
  id : String
  centerAngle : ℚ
  label : String
  reverse : Bool

/-- The four quarter definitions (lines 284-289): right=0, bottom=90,
left=180, top=270; only the bottom path is reversed. The || "" guards of
the source are identities on the String model. -/
def quartersSpecs (quarters : Quarters) : List QuarterSpec :=
  [ { id := "q-right", centerAngle := 0, label := quarters.right, reverse := false },
    { id := "q-bottom", centerAngle := 90, label := quarters.bottom, reverse := true },
    { id := "q-left", centerAngle := 180, label := quarters.left, reverse := false },
    { id := "q-top", centerAngle := 270, label := quarters.top, reverse := false } ]

structure LabelText where
  fontSize : ℚ
  text : String
  href : String
  translate : Option (ℚ × ℚ)

structure NumeralText where
  key : StatKey
  angle : ℚ
  x : ℚ
  y : ℚ
  fontSize : ℚ
  text : String
deriving DecidableEq

structure SvgOverlay where
  viewBoxW : ℚ
  viewBoxH : ℚ
  pathDefs : List (String × ArcPath)
  labels : List LabelText
  numerals : List NumeralText

/-- Stat angles of the overlay (lines 335-340): top=270 move, left=180
health, right=0 save, bottom=90 control. -/
def statsMap : List (ℚ × StatKey) :=
  [(270, .move), (180, .health), (0, .save), (90, .control)]

section Render

variable (cosD sinD : ℚ → ℚ)

/-- The overlay element built by renderQuarterLabels: arc path defs at
textRadius, one curved label per quarter (the bottom one nudged inward),
and one upright numeral per non-empty formatted stat at numberRadius.
The source serializes numeral coordinates with toFixed(2); the embedding
keeps the exact values the serialization is taken from. -/
def buildOverlay (imgWidth imgHeight : ℚ) (quarters : Quarters) (stats : Stats) : SvgOverlay :=
  let g := badgeGeom imgWidth imgHeight
  let cx : ℚ := g.cx
  let cy : ℚ := g.cy
  let circleRadius : ℚ := g.circleRadius
  let textRadius := max 12 (circleRadius * 0.70)
  let numberRadius := max 8 (circleRadius * 0.40)
  let specs := quartersSpecs quarters
  let pathDefs := specs.map (fun spec =>
    let startAngle := spec.centerAngle - 45
    let endAngle := spec.centerAngle + 45
    let pathD := if spec.reverse then arcPathD cosD sinD cx cy textRadius endAngle startAngle
      else arcPathD cosD sinD cx cy textRadius startAngle endAngle
    (spec.id, pathD))
  let labels := specs.map (fun spec =>
    let fontSize : ℚ := max 10 ((jsRound (circleRadius * 0.15) : ℤ) : ℚ)
    let translate := if spec.id = "q-bottom" then
        let offset := circleRadius * 0.99
        some (-(cosD spec.centerAngle) * offset, -(sinD spec.centerAngle) * offset)
      else none
    { fontSize := fontSize, text := spec.label, href := spec.id, translate := translate })
  let numerals := statsMap.filterMap (fun s =>
    let raw := stats.get s.2
    let formatted := formatStatForDisplay s.2 raw
    if formatted = "" then none
    else
      let p := polarToCartesian cosD sinD cx cy numberRadius s.1
      some { key := s.2, angle := s.1, x := p.1, y := p.2,
             fontSize := max 12 ((jsRound (circleRadius * 0.3) : ℤ) : ℚ), text := formatted })
  { viewBoxW := imgWidth, viewBoxH := imgHeight, pathDefs := pathDefs,
    labels := labels, numerals := numerals }

end Render

/-- A child of the previewInner container. The overlay carries the class
quarter-labels-overlay; every other child (title h2, content div) does
not, nor do their descendants, so removal at the children level is
faithful to the querySelector of line 252. -/
inductive DomChild
  | overlay (o : SvgOverlay)
  | other (tag : String)

def isOverlay : DomChild → Bool
  | .overlay _ => true
  | .other _ => false

/-- Lines 252-253: remove the first existing overlay, if any. -/
def removeFirstOverlay : List DomChild → List DomChild
  | [] => []
  | c :: cs => if isOverlay c then cs else c :: removeFirstOverlay cs

/-- renderQuarterLabels acting on the container: remove the previous
overlay, then append the freshly built one (line 361). -/
def renderQuarterLabels (cosD sinD : ℚ → ℚ) (container : List DomChild)
    (imgWidth imgHeight : ℚ) (quarters : Quarters) (stats : Stats) : List DomChild :=
  removeFirstOverlay container ++
    [DomChild.overlay (buildOverlay cosD sinD imgWidth imgHeight quarters stats)]

def countOverlay (cs : List DomChild) : ℕ := cs.countP (fun c => isOverlay c)

/-! ## The canvas exporter (drawWarscrollCanvas and the saveBtn handler) -/

/-- A loaded background image: its natural pixel size, and whether
ctx.drawImage succeeds on it (false models the broken-state throw caught
at lines 121-126). -/
structure JsImage where
  naturalWidth : ℚ
  naturalHeight : ℚ
  drawable : Bool
deriving DecidableEq

/-- One immediate-mode drawing operation of the exporter. fillText and
fillRect record the fill style in effect at the call site. -/
inductive DrawOp
  | drawImage (imgW imgH x y w h : ℚ)
  | fillRect (color : String) (x y w h : ℚ)
  | strokeRect (x y w h : ℚ)
  | fillText (color : String) (s : String) (x y : ℚ)
deriving DecidableEq

/-- The wrapText loop (lines 208-224): greedily extend the current line;
on overflow (never on the first word) commit it and continue on the next
baseline; the last line is always committed. -/
def wrapTextAux (measure : String → ℚ) (x maxWidth lineHeight : ℚ) :
    List String → String → ℚ → Bool → List DrawOp
  | [], line, y, _ => [DrawOp.fillText "#111" line x y]
  | w :: ws, line, y, isFirst =>
    let testLine := line ++ (if line = "" then "" else " ") ++ w
    if measure testLine > maxWidth ∧ isFirst = false then
      DrawOp.fillText "#111" line x y ::
        wrapTextAux measure x maxWidth lineHeight ws w (y + lineHeight) false
    else
      wrapTextAux measure x maxWidth lineHeight ws testLine y false

def wrapText (measure : String → ℚ) (text : String) (x y maxWidth lineHeight : ℚ) :
    List DrawOp :=
  wrapTextAux measure x maxWidth lineHeight (text.splitOn " ") "" y true

def jsOrDash (s : String) : String := if s = "" then "-" else s

/-- The fixed body block (lines 186-196). -/
def sampleLines (stats : Stats) : List String :=
  [ "Unit Type: Custom",
    "Move: " ++ jsOrDash (formatStatForDisplay .move stats.move),
    "Wounds: " ++ jsOrDash (formatStatForDisplay .health stats.health),
    "Save: " ++ jsOrDash (formatStatForDisplay .save stats.save),
    "Control: " ++ jsOrDash (formatStatForDisplay .control stats.control),
    "",
    "Abilities:",
    "- Example ability 1",
    "- Example ability 2" ]

section Canvas

variable (cosD sinD : ℚ → ℚ)

/-- drawStatAtAngle (lines 163-171): nothing is drawn for an empty
formatted value; otherwise the numeral is filled in white at the polar
position of the quadrant angle. -/
def drawStatAtAngle (cx cy numberRadius : ℚ) (stats : Stats)
    (angleDeg : ℚ) (key : StatKey) : List DrawOp :=
  let raw := stats.get key
  let formatted := formatStatForDisplay key raw
  if formatted = "" then []
  else
    let nx := cx + numberRadius * cosD angleDeg
    let ny := cy + numberRadius * sinD angleDeg
    [DrawOp.fillText "#ffffff" formatted nx ny]

/-- Everything drawWarscrollCanvas draws after the background step
(lines 132-199): border, wrapped title, the four stat numerals at
max(8, 0.45 * circleRadius), and the body block. Independent of the
background image. -/
def restOps (measure : String → ℚ) (title : String) (width height : ℚ)
    (stats : Stats) : List DrawOp :=
  let titleFontSize : ℚ := max 18 ((jsRound (width * 0.035) : ℤ) : ℚ)
  let titleY : ℚ := 36
  let g := badgeGeom width height
  let cx : ℚ := g.cx
  let cy : ℚ := g.cy
  let circleRadius : ℚ := g.circleRadius
  let numberRadius := max 8 (circleRadius * 0.45)
  let bodyFontSize : ℚ := max 12 ((jsRound (width * 0.02) : ℤ) : ℚ)
  let contentStart : ℚ := jsRound (titleY + titleFontSize + 16)
  let lineHeight : ℚ := jsRound (bodyFontSize * 1.5)
  [DrawOp.strokeRect 12 12 (width - 24) (height - 24)]
    ++ wrapText measure title (width / 2) titleY (width - 80) (titleFontSize + 6)
    ++ drawStatAtAngle cosD sinD cx cy numberRadius stats 270 .move
    ++ drawStatAtAngle cosD sinD cx cy numberRadius stats 180 .health
    ++ drawStatAtAngle cosD sinD cx cy numberRadius stats 0 .save
    ++ drawStatAtAngle cosD sinD cx cy numberRadius stats 90 .control
    ++ (sampleLines stats).enum.map (fun p =>
        DrawOp.fillText "#333" p.2 48 (contentStart + (p.1 : ℚ) * lineHeight))

structure CanvasResult where
  pixelW : ℤ
  pixelH : ℤ
  width : ℚ
  height : ℚ
  ops : List DrawOp

/-- drawWarscrollCanvas (lines 109-205): the canvas is sized to
width x height CSS pixels (device pixels scaled by dpr); the background
image is drawn when present and drawable, and a solid white fill of the
full canvas is used otherwise (the else branch and the catch branch);
then the rest of the composition follows. Total: the export never
aborts. -/
def drawWarscrollCanvas (dpr : ℚ) (measure : String → ℚ) (title : String)
    (width height : ℚ) (bgImg : Option JsImage) (stats : Stats) : CanvasResult :=
  let bgOps : List DrawOp :=
    match bgImg with
    | some img =>
      if img.drawable then [DrawOp.drawImage img.naturalWidth img.naturalHeight 0 0 width height]
      else [DrawOp.fillRect "#ffffff" 0 0 width height]
    | none => [DrawOp.fillRect "#ffffff" 0 0 width height]
  { pixelW := jsRound (width * dpr), pixelH := jsRound (height * dpr)
    width := width, height := height
    ops := bgOps ++ restOps cosD sinD measure title width height stats }

/-- The saveBtn click handler (lines 545-569): the export size is the
natural size of the background image when available and the default
800 x 1100 otherwise; the canvas is then drawn with the current stats. -/
def exportOnSave (dpr : ℚ) (measure : String → ℚ) (title : String)
    (img : Option JsImage) (stats : Stats) : CanvasResult :=
  let width : ℚ := match img with | some i => i.naturalWidth | none => 800
  let height : ℚ := match img with | some i => i.naturalHeight | none => 1100
  drawWarscrollCanvas cosD sinD dpr measure title width height img stats

end Canvas

/-! ## Definitions used by the verification statements -/

/-- A list of characters drawn from the ten decimal digit glyphs. -/
def DigitList (l : List Char) : Prop := ∀ c ∈ l, ∃ d, d < 10 ∧ c = digitChar d

/-- A stat field is either the untouched empty string or a stored
non-negative integer; for save the stored integer lies in [1, 6]. -/
def statOk (k : StatKey) (v : JSVal) : Prop :=
  v = JSVal.str "" ∨
    ∃ n : ℤ, v = JSVal.num (n : ℚ) ∧ 0 ≤ n ∧ (k = .save → 1 ≤ n ∧ n ≤ 6)

/-- Every stat field of a session state satisfies statOk. -/
def statsOk (s : Stats) : Prop := ∀ k, statOk k (s.get k)

/-- The quadrant angle of each stat, common to both renderers. -/
def statAngle : StatKey → ℚ
  | .move => 270
  | .health => 180
  | .save => 0
  | .control => 90

/-- Concrete trig stand-ins and helpers for closed statements. -/
def constOne : ℚ → ℚ := fun _ => 1

def constZero : ℚ → ℚ := fun _ => 0

def zeroMeasure : String → ℚ := fun _ => 0

def sampleQuarters : Quarters :=
  { top := "T", left := "L", right := "R", bottom := "B" }

/-- A session in which only save has been entered. -/
def saveOnlyStats : Stats := Stats.set initialStats .save (.num 4)

/-- A loaded but undrawable background image of natural size 600 x 900. -/
def brokenImage : JsImage := { naturalWidth := 600, naturalHeight := 900, drawable := false }

/-! ## Supporting lemmas: decimal digits and parsing -/

theorem digitChar_isDigit : ∀ d < 10, (digitChar d).isDigit = true := by decide

theorem digitChar_val : ∀ d < 10, (digitChar d).toNat - 48 = d := by decide

theorem digitChar_not_ws : ∀ d < 10, isWsChar (digitChar d) = false := by decide

theorem digitChar_ne_special :
    ∀ d < 10, digitChar d ≠ '-' ∧ digitChar d ≠ '+' ∧ digitChar d ≠ '.' := by decide

theorem natToDigitsAux_dig (fuel : ℕ) : ∀ n < fuel, DigitList (natToDigitsAux fuel n) := by
  induction fuel with
  | zero => intro n h; omega
  | succ fuel ih =>
    intro n hn
    rw [natToDigitsAux]
    split
    · next h =>
      intro c hc
      rw [List.mem_singleton] at hc
      exact ⟨n, h, hc⟩
    · next h =>
      intro c hc
      rw [List.mem_append] at hc
      rcases hc with hc | hc
      · exact ih (n / 10) (by omega) c hc
      · rw [List.mem_singleton] at hc
        exact ⟨n % 10, Nat.mod_lt _ (by omega), hc⟩

theorem natToDigits_dig (n : ℕ) : DigitList (natToDigits n) :=
  natToDigitsAux_dig (n + 1) n (Nat.lt_succ_self n)

theorem natToDigits_ne_nil (n : ℕ) : natToDigits n ≠ [] := by
  rw [natToDigits, natToDigitsAux]
  split
  · simp
  · simp

theorem digitsVal_append_singleton (l : List Char) (c : Char) :
    digitsVal (l ++ [c]) = 10 * digitsVal l + (c.toNat - 48) := by
  simp [digitsVal, List.foldl_append]

theorem digitsVal_natToDigitsAux (fuel : ℕ) :
    ∀ n < fuel, digitsVal (natToDigitsAux fuel n) = n := by
  induction fuel with
  | zero => intro n h; omega
  | succ fuel ih =>
    intro n hn
    rw [natToDigitsAux]
    split
    · next h =>
      have hv : digitsVal [digitChar n] = (digitChar n).toNat - 48 := by
        simp [digitsVal]
      rw [hv, digitChar_val n h]
    · next h =>
      rw [digitsVal_append_singleton, ih (n / 10) (by omega),
        digitChar_val (n % 10) (Nat.mod_lt _ (by omega))]
      omega

theorem digitsVal_natToDigits (n : ℕ) : digitsVal (natToDigits n) = n :=
  digitsVal_natToDigitsAux (n + 1) n (Nat.lt_succ_self n)

theorem takeWhile_digits (l : List Char) (h : DigitList l) :
    l.takeWhile Char.isDigit = l := by
  induction l with
  | nil => rfl
  | cons c t ih =>
    obtain ⟨d, hd, rfl⟩ := h _ (List.mem_cons_self _ _)
    rw [List.takeWhile_cons, digitChar_isDigit d hd]
    simp only [if_true]
    rw [ih (fun c hc => h c (List.mem_cons_of_mem _ hc))]

theorem parseIntChars_digits (l : List Char) (hne : l ≠ [])
    (hd : DigitList l) : parseIntChars l = some ((digitsVal l : ℕ) : ℤ) := by
  match l, hne with
  | c :: t, _ =>
    obtain ⟨d, hd10, rfl⟩ := hd _ (List.mem_cons_self _ _)
    obtain ⟨hdash, hplus, _⟩ := digitChar_ne_special d hd10
    simp only [parseIntChars, List.dropWhile_cons, digitChar_not_ws d hd10,
      Bool.false_eq_true, if_false]
    rw [if_neg hdash, if_neg hplus, takeWhile_digits _ hd]
    simp

theorem jsNumToChars_natCast (n : ℕ) : jsNumToChars (n : ℚ) = natToDigits n := by
  unfold jsNumToChars nnRatToChars
  rw [if_neg (not_lt.mpr (Nat.cast_nonneg n))]
  rw [Int.floor_natCast, Rat.den_natCast]
  simp

theorem jsParseInt_num_nat (n : ℕ) : jsParseInt (.num (n : ℚ)) = some ((n : ℕ) : ℤ) := by
  simp only [jsParseInt]
  rw [jsNumToChars_natCast,
    parseIntChars_digits _ (natToDigits_ne_nil n) (natToDigits_dig n),
    digitsVal_natToDigits]

theorem formatSave_nat (n : ℕ) :
    formatStatForDisplay .save (.num (n : ℚ)) = jsNumToString (n : ℚ) ++ "+" := by
  unfold formatStatForDisplay
  rw [if_neg (by simp)]
  rw [jsParseInt_num_nat]
  simp only []
  rw [if_neg (by exact_mod_cast Int.not_lt.mpr (Int.natCast_nonneg n))]
  norm_num

theorem formatHealth_nat (n : ℕ) :
    formatStatForDisplay .health (.num (n : ℚ)) = jsNumToString (n : ℚ) := by
  unfold formatStatForDisplay
  rw [if_neg (by simp)]
  rw [jsParseInt_num_nat]
  simp only []
  rw [if_neg (by exact_mod_cast Int.not_lt.mpr (Int.natCast_nonneg n))]
  norm_num

theorem formatControl_nat (n : ℕ) :
    formatStatForDisplay .control (.num (n : ℚ)) = jsNumToString (n : ℚ) := by
  unfold formatStatForDisplay
  rw [if_neg (by simp)]
  rw [jsParseInt_num_nat]
  simp only []
  rw [if_neg (by exact_mod_cast Int.not_lt.mpr (Int.natCast_nonneg n))]
  norm_num

/-! ## Stat state lemmas -/

theorem statInputUpdate_ok (k : StatKey) (v : String) : statOk k (statInputUpdate k v) := by
  unfold statInputUpdate
  split
  · exact Or.inl rfl
  cases k
  case save =>
    cases hp : parseIntStr v with
    | none => simp only [hp]; exact Or.inl rfl
    | some n =>
      simp only [hp, Int.floor_intCast]
      right
      refine ⟨_, rfl, ?_, fun _ => ⟨?_, ?_⟩⟩ <;> (split_ifs <;> omega)
  all_goals
    cases hp : parseIntStr v with
    | none => simp only [hp]; exact Or.inl rfl
    | some n =>
      simp only [hp, Int.floor_intCast]
      right
      refine ⟨_, rfl, ?_, fun hk => by exact absurd hk (by decide)⟩
      split_ifs <;> omega

theorem statsOk_initial : statsOk initialStats := fun k =>
  Or.inl (by cases k <;> rfl)

theorem stats_get_set (s : Stats) (k k' : StatKey) (v : JSVal) :
    (s.set k v).get k' = if k' = k then v else s.get k' := by
  cases k <;> cases k' <;> simp [Stats.set, Stats.get]

theorem statsOk_step (s : Stats) (ev : StatKey × String) (h : statsOk s) :
    statsOk (statStep s ev) := by
  intro k
  unfold statStep
  rw [stats_get_set]
  split
  · next heq => subst heq; exact statInputUpdate_ok _ _
  · exact h k

theorem statsOk_foldl (evs : List (StatKey × String)) (s : Stats) (h : statsOk s) :
    statsOk (evs.foldl statStep s) := by
  induction evs generalizing s with
  | nil => exact h
  | cons e t ih => exact ih _ (statsOk_step s e h)

/-! ## Claim C1 (code_bug evidence) -/

/-- C1: the claim states that move normalization parses the input as a
decimal and keeps fractional values, so that input 6.5 is stored as the
numeric 6.5 and displays as 6.5 with the inch mark. The input handler of
the code instead stores parseInt of the text: typing 6.5 into the move
field stores the integer 6 and the badge shows 6 with the inch mark.
The display formatter alone would render the fractional value exactly as
the claim (and the file header comment, and the input title text)
describe, which shows the truncation is a slip in the handler, not a
different design. -/
theorem c1_move_input_truncates :
    statInputUpdate .move "6.5" = JSVal.num 6 ∧
    formatStatForDisplay .move (statInputUpdate .move "6.5") = "6\"" ∧
    formatStatForDisplay .move (.str "6.5") = "6.5\"" ∧
    formatStatForDisplay .move (.num (13/2)) = "6.5\"" := by
  refine ⟨by decide, by decide, by decide, by decide⟩

/-! ## Claim C2 -/

/-- C2: once the save input parses to a number, the stored value is an
integer clamped into [1, 6]; the inputs 0 and 9 display as 1+ and 6+. -/
theorem c2_save_clamped_into_1_6 :
    (∀ v : String, statInputUpdate .save v = JSVal.str "" ∨
      ∃ n : ℤ, statInputUpdate .save v = JSVal.num (n : ℚ) ∧ 1 ≤ n ∧ n ≤ 6) ∧
    formatStatForDisplay .save (statInputUpdate .save "0") = "1+" ∧
    formatStatForDisplay .save (statInputUpdate .save "9") = "6+" := by
  refine ⟨fun v => ?_, by decide, by decide⟩
  rcases statInputUpdate_ok .save v with h | ⟨n, hv, _, hs⟩
  · exact Or.inl h
  · exact Or.inr ⟨n, hv, (hs rfl).1, (hs rfl).2⟩

/-! ## Rounding lemmas for the layout claims -/

theorem jsRound_nonpos (x : ℚ) (hx : x ≤ 0) : jsRound x ≤ 0 := by
  unfold jsRound
  have h : ⌊x + 1/2⌋ ≤ ⌊(1:ℚ)/2⌋ := Int.floor_le_floor (by linarith)
  have h0 : ⌊(1:ℚ)/2⌋ = 0 := by norm_num
  omega

theorem jsRound_double_close (x : ℚ) : |jsRound (2 * x) - 2 * jsRound x| ≤ 1 := by
  unfold jsRound
  set a : ℤ := ⌊x + 1/2⌋ with ha
  set b : ℤ := ⌊2 * x + 1/2⌋ with hb
  have ha1 : (a : ℚ) ≤ x + 1/2 := Int.floor_le _
  have ha2 : x + 1/2 < a + 1 := Int.lt_floor_add_one _
  have hb1 : (b : ℚ) ≤ 2 * x + 1/2 := Int.floor_le _
  have hb2 : 2 * x + 1/2 < b + 1 := Int.lt_floor_add_one _
  have hu : (b : ℚ) < 2 * a + 2 := by linarith
  have hl : (2 * a : ℚ) - 2 < b := by linarith
  have hu2 : b < 2 * a + 2 := by exact_mod_cast hu
  have hl2 : 2 * a - 2 < b := by exact_mod_cast hl
  rw [abs_le]
  omega

/-! ## Claim C5 (corrected) -/

/-- C5 counterexample: with zero image dimensions, the badge geometry
computation used by both renderers silently returns the degenerate
zero-radius layout, and the overlay renderer still succeeds on it (one
overlay appended); no validation error exists anywhere on this path. -/
theorem c5_counterexample_no_validation :
    badgeGeom 0 0 = { cx := 0, cy := 0, circleRadius := 0 } ∧
    countOverlay (renderQuarterLabels constOne constZero []
      0 0 sampleQuarters initialStats) = 1 := by
  refine ⟨by decide, rfl⟩

/-- C5 amended: for non-positive image width or height the layout
computation does not fail: it silently produces a degenerate layout
whose circle radius is at most zero (exactly zero at 0 x 0). -/
theorem c5_nonpositive_dims_degenerate (w h : ℚ) (hwh : w ≤ 0 ∨ h ≤ 0) :
    (badgeGeom w h).circleRadius ≤ 0 := by
  unfold badgeGeom
  simp only []
  apply jsRound_nonpos
  have hm : min w h ≤ 0 := by
    rcases hwh with hw | hh
    · exact le_trans (min_le_left w h) hw
    · exact le_trans (min_le_right w h) hh
  nlinarith

/-- C5 witness: the amended statement at the concrete degenerate input
0 x 0. -/
theorem c5_witness : (badgeGeom 0 0).circleRadius ≤ 0 :=
  c5_nonpositive_dims_degenerate 0 0 (Or.inl le_rfl)

/-! ## Claim C6 (corrected) -/

/-- C6 counterexample: doubling a 5 x 5 image does not double the rounded
circle radius: both 5 x 5 and 10 x 10 give radius 1, but twice 1 is 2. -/
theorem c6_counterexample_rounding :
    (badgeGeom 5 5).circleRadius = 1 ∧ (badgeGeom 10 10).circleRadius = 1 ∧
    (badgeGeom 10 10).circleRadius ≠ 2 * (badgeGeom 5 5).circleRadius := by
  refine ⟨by decide, by decide, by decide⟩

/-- C6 amended: the layout scales linearly before rounding (the exact
radius of the doubled image is twice the exact radius), and the rounded
radius stored by the code differs from twice the smaller rounded radius
by at most one pixel. -/
theorem c6_scaling_up_to_rounding (w h : ℚ) (_hw : 0 < w) (_hh : 0 < h) :
    min (2 * w) (2 * h) * 0.12 = 2 * (min w h * 0.12) ∧
    |(badgeGeom (2 * w) (2 * h)).circleRadius - 2 * (badgeGeom w h).circleRadius| ≤ 1 := by
  have hmin : min (2 * w) (2 * h) = 2 * min w h := by
    rcases le_total w h with hle | hle
    · rw [min_eq_left hle, min_eq_left (by linarith)]
    · rw [min_eq_right hle, min_eq_right (by linarith)]
  constructor
  · rw [hmin]; ring
  · unfold badgeGeom
    simp only []
    have he : min (2 * w) (2 * h) * 0.12 = 2 * (min w h * 0.12) := by rw [hmin]; ring
    rw [he]
    exact jsRound_double_close (min w h * 0.12)

/-- C6 witness: the amended statement at the concrete 5 x 5 image. -/
theorem c6_witness :
    min (2 * (5:ℚ)) (2 * 5) * 0.12 = 2 * (min (5:ℚ) 5 * 0.12) ∧
    |(badgeGeom (2 * 5) (2 * 5)).circleRadius - 2 * (badgeGeom 5 5).circleRadius| ≤ 1 :=
  c6_scaling_up_to_rounding 5 5 (by norm_num) (by norm_num)

/-! ## Claim C4: arc delta normalization and flags -/

theorem jsMod360_lt (x : ℚ) : -360 < jsMod x 360 ∧ jsMod x 360 < 360 := by
  unfold jsMod ratTrunc
  split
  · next h =>
    have h1 : (⌊x / 360⌋ : ℚ) ≤ x / 360 := Int.floor_le _
    have h2 : x / 360 < ⌊x / 360⌋ + 1 := Int.lt_floor_add_one _
    constructor <;> nlinarith
  · next h =>
    have h1 : (⌊-(x / 360)⌋ : ℚ) ≤ -(x / 360) := Int.floor_le _
    have h2 : -(x / 360) < ⌊-(x / 360)⌋ + 1 := Int.lt_floor_add_one _
    push_cast
    constructor <;> nlinarith

theorem jsMod360_nonneg (x : ℚ) (hx : 0 ≤ x) : 0 ≤ jsMod x 360 := by
  unfold jsMod ratTrunc
  rw [if_pos (by positivity)]
  have h1 : (⌊x / 360⌋ : ℚ) ≤ x / 360 := Int.floor_le _
  nlinarith

theorem arcDelta_mem (s e : ℚ) : 0 ≤ arcDelta s e ∧ arcDelta s e < 360 := by
  unfold arcDelta
  have hm := jsMod360_lt (e - s)
  have hnn : 0 ≤ jsMod (e - s) 360 + 360 := by linarith [hm.1]
  exact ⟨jsMod360_nonneg _ hnn, (jsMod360_lt _).2⟩

theorem arcDelta_self (a : ℚ) : arcDelta a a = 0 := by
  unfold arcDelta
  rw [sub_self]
  norm_num [jsMod, ratTrunc]

theorem arcDelta_full_turn (a : ℚ) : arcDelta a (a + 360) = 0 := by
  unfold arcDelta
  have h : a + 360 - a = (360 : ℚ) := by ring
  rw [h]
  norm_num [jsMod, ratTrunc]

/-- C4: for all start and end angles the angular delta is normalized into
[0, 360); the large-arc flag is 1 exactly when the delta exceeds 180 and
0 otherwise; the sweep flag is 1 exactly when the delta is in (0, 180]
and 0 otherwise; a zero delta and a full turn are both well-defined, with
delta 0 and both flags 0 (the embedding is total, so no division by zero
or NaN arises). Stated for arbitrary trig functions cosD, sinD, since
the flags do not depend on them. -/
theorem c4_arc_flags (cosD sinD : ℚ → ℚ) (cx cy radius startAngle endAngle : ℚ) :
    (0 ≤ arcDelta startAngle endAngle ∧ arcDelta startAngle endAngle < 360) ∧
    ((arcPathD cosD sinD cx cy radius startAngle endAngle).largeArcFlag = 1 ↔
      180 < arcDelta startAngle endAngle) ∧
    ((arcPathD cosD sinD cx cy radius startAngle endAngle).largeArcFlag = 0 ↔
      ¬ 180 < arcDelta startAngle endAngle) ∧
    ((arcPathD cosD sinD cx cy radius startAngle endAngle).sweepFlag = 1 ↔
      (0 < arcDelta startAngle endAngle ∧ arcDelta startAngle endAngle ≤ 180)) ∧
    ((arcPathD cosD sinD cx cy radius startAngle endAngle).sweepFlag = 0 ↔
      ¬ (0 < arcDelta startAngle endAngle ∧ arcDelta startAngle endAngle ≤ 180)) ∧
    arcDelta startAngle startAngle = 0 ∧
    arcDelta startAngle (startAngle + 360) = 0 ∧
    (arcPathD cosD sinD cx cy radius startAngle startAngle).largeArcFlag = 0 ∧
    (arcPathD cosD sinD cx cy radius startAngle startAngle).sweepFlag = 0 ∧
    (arcPathD cosD sinD cx cy radius startAngle (startAngle + 360)).largeArcFlag = 0 ∧
    (arcPathD cosD sinD cx cy radius startAngle (startAngle + 360)).sweepFlag = 0 := by
  refine ⟨arcDelta_mem _ _, ?_, ?_, ?_, ?_, arcDelta_self _, arcDelta_full_turn _,
    ?_, ?_, ?_, ?_⟩ <;>
    simp only [arcPathD, arcDelta_self, arcDelta_full_turn] <;>
    split_ifs <;> simp_all <;> norm_num at *

/-! ## Claim C8: the overlay render is idempotent on its container -/

theorem countOverlay_cons (c : DomChild) (cs : List DomChild) :
    countOverlay (c :: cs) = countOverlay cs + (if isOverlay c then 1 else 0) := by
  unfold countOverlay
  rw [List.countP_cons]

theorem countOverlay_removeFirst (l : List DomChild) (h : countOverlay l ≤ 1) :
    countOverlay (removeFirstOverlay l) = 0 := by
  induction l with
  | nil => rfl
  | cons c cs ih =>
    rw [countOverlay_cons] at h
    rw [removeFirstOverlay]
    split
    · next hc =>
      rw [hc, if_pos rfl] at h
      unfold countOverlay at h ⊢
      omega
    · next hc =>
      have hcf : isOverlay c = false := by
        cases hb : isOverlay c
        · rfl
        · exact absurd hb hc
      rw [hcf] at h
      simp only [Bool.false_eq_true, if_false] at h
      rw [countOverlay_cons, hcf]
      simp only [Bool.false_eq_true, if_false]
      rw [ih (by omega)]

theorem countOverlay_render (cosD sinD : ℚ → ℚ) (container : List DomChild)
    (w h : ℚ) (q : Quarters) (st : Stats) (hc : countOverlay container ≤ 1) :
    countOverlay (renderQuarterLabels cosD sinD container w h q st) = 1 := by
  unfold renderQuarterLabels countOverlay
  rw [List.countP_append]
  have h0 := countOverlay_removeFirst container hc
  unfold countOverlay at h0
  rw [h0]
  rfl

theorem countOverlay_foldl_render (cosD sinD : ℚ → ℚ)
    (calls : List (ℚ × ℚ × Quarters × Stats)) :
    ∀ container, countOverlay container = 1 →
      countOverlay (calls.foldl
        (fun c a => renderQuarterLabels cosD sinD c a.1 a.2.1 a.2.2.1 a.2.2.2) container) = 1 := by
  induction calls with
  | nil => intro container hc; exact hc
  | cons a t ih =>
    intro container hc
    exact ih _ (countOverlay_render cosD sinD container a.1 a.2.1 a.2.2.1 a.2.2.2 (le_of_eq hc))

/-- C8: starting from a container that holds at most one overlay (the
previewInner of the app starts with none), any non-empty sequence of
renderQuarterLabels calls, with arbitrary image sizes, labels and stats
at each call, leaves exactly one overlay element in the container: each
call removes the previous overlay and appends a fresh one, never
double-inserting. -/
theorem c8_overlay_idempotent (cosD sinD : ℚ → ℚ) (container : List DomChild)
    (calls : List (ℚ × ℚ × Quarters × Stats))
    (hc : countOverlay container ≤ 1) (hne : calls ≠ []) :
    countOverlay (calls.foldl
      (fun c a => renderQuarterLabels cosD sinD c a.1 a.2.1 a.2.2.1 a.2.2.2) container) = 1 := by
  match calls, hne with
  | a :: t, _ =>
    rw [List.foldl_cons]
    exact countOverlay_foldl_render cosD sinD t _
      (countOverlay_render cosD sinD container a.1 a.2.1 a.2.2.1 a.2.2.2 hc)

/-- C8 witness: one concrete call on the initially overlay-free container
leaves exactly one overlay. -/
theorem c8_witness :
    countOverlay ([((50 : ℚ), (50 : ℚ), sampleQuarters, initialStats)].foldl
      (fun c a => renderQuarterLabels constOne constZero c a.1 a.2.1 a.2.2.1 a.2.2.2)
      []) = 1 :=
  c8_overlay_idempotent constOne constZero [] _ (by decide) (by simp)

/-! ## Claims C7 and C9: exporter fallback and numeral placement -/

theorem wrapTextAux_mem (measure : String → ℚ) (x maxW lh : ℚ) :
    ∀ (words : List String) (line : String) (y : ℚ) (isFirst : Bool),
      ∃ s yy, DrawOp.fillText "#111" s x yy ∈ wrapTextAux measure x maxW lh words line y isFirst := by
  intro words
  induction words with
  | nil =>
    intro line y isFirst
    exact ⟨line, y, by rw [wrapTextAux]; exact List.mem_singleton.mpr rfl⟩
  | cons w ws ih =>
    intro line y isFirst
    rw [wrapTextAux]
    split <;> split
    all_goals
      first
      | · obtain ⟨s, yy, hm⟩ := ih w (y + lh) false
          exact ⟨s, yy, List.mem_cons_of_mem _ hm⟩
      | exact ih _ _ _

theorem drawStatAtAngle_eq (cosD sinD : ℚ → ℚ) (cx cy nr : ℚ) (stats : Stats)
    (a : ℚ) (key : StatKey) (hne : formatStatForDisplay key (stats.get key) ≠ "") :
    drawStatAtAngle cosD sinD cx cy nr stats a key =
      [DrawOp.fillText "#ffffff" (formatStatForDisplay key (stats.get key))
        (cx + nr * cosD a) (cy + nr * sinD a)] := by
  unfold drawStatAtAngle
  rw [if_neg hne]

theorem export_numeral_mem (cosD sinD : ℚ → ℚ) (measure : String → ℚ)
    (title : String) (w h : ℚ) (stats : Stats) (key : StatKey)
    (hne : formatStatForDisplay key (stats.get key) ≠ "") :
    DrawOp.fillText "#ffffff" (formatStatForDisplay key (stats.get key))
        (((badgeGeom w h).cx : ℚ) +
          max 8 (((badgeGeom w h).circleRadius : ℚ) * 0.45) * cosD (statAngle key))
        (((badgeGeom w h).cy : ℚ) +
          max 8 (((badgeGeom w h).circleRadius : ℚ) * 0.45) * sinD (statAngle key))
      ∈ restOps cosD sinD measure title w h stats := by
  unfold restOps
  simp only []
  cases key <;>
    simp only [statAngle] <;>
    rw [drawStatAtAngle_eq cosD sinD _ _ _ stats _ _ hne] <;>
    simp [List.mem_append]

theorem overlay_numeral_mem (cosD sinD : ℚ → ℚ) (w h : ℚ) (quarters : Quarters)
    (stats : Stats) (key : StatKey)
    (hne : formatStatForDisplay key (stats.get key) ≠ "") :
    ({ key := key, angle := statAngle key
       x := ((badgeGeom w h).cx : ℚ) +
         max 8 (((badgeGeom w h).circleRadius : ℚ) * 0.40) * cosD (statAngle key)
       y := ((badgeGeom w h).cy : ℚ) +
         max 8 (((badgeGeom w h).circleRadius : ℚ) * 0.40) * sinD (statAngle key)
       fontSize := max 12 ((jsRound (((badgeGeom w h).circleRadius : ℚ) * 0.3) : ℤ) : ℚ)
       text := formatStatForDisplay key (stats.get key) } : NumeralText)
      ∈ (buildOverlay cosD sinD w h quarters stats).numerals := by
  refine List.mem_filterMap.mpr ⟨(statAngle key, key), ?_, ?_⟩
  · cases key <;> simp [statsMap, statAngle]
  · simp only [polarToCartesian]
    rw [if_neg hne]

/-- C9 counterexample: on a 50 x 50 image the circle radius is 6, and the
preview places the save numeral at horizontal offset max(8, 0.40*6) = 8
from the center (x = 8 + 8 = 16 with cos = 1), not at the claimed
0.40 * circleRadius = 2.4 (which would give x = 10.4): the Math.max(8, _)
clamp of both renderers is missing from the claim. -/
theorem c9_counterexample_radius_clamp :
    (buildOverlay constOne constZero 50 50 sampleQuarters saveOnlyStats).numerals =
      [{ key := .save, angle := 0, x := 16, y := 5, fontSize := 12, text := "4+" }] ∧
    ((16 : ℚ) ≠ ((badgeGeom 50 50).cx : ℚ) + ((badgeGeom 50 50).circleRadius : ℚ) * 0.40 * 1) := by
  refine ⟨by decide, by decide⟩

/-- C9 amended: for every layout and stat whose formatted value is
non-empty, the preview overlay places the numeral at radial distance
max(8, 0.40 * circleRadius) from the badge center and the exporter at
max(8, 0.45 * circleRadius), both at the same quadrant angle (move 270,
health 180, save 0, control 90) and with the same formatted string. -/
theorem c9_numeral_radius_divergence (cosD sinD : ℚ → ℚ) (dpr : ℚ)
    (measure : String → ℚ) (title : String) (w h : ℚ) (quarters : Quarters)
    (bg : Option JsImage) (stats : Stats) (key : StatKey)
    (hne : formatStatForDisplay key (stats.get key) ≠ "") :
    ({ key := key, angle := statAngle key
       x := ((badgeGeom w h).cx : ℚ) +
         max 8 (((badgeGeom w h).circleRadius : ℚ) * 0.40) * cosD (statAngle key)
       y := ((badgeGeom w h).cy : ℚ) +
         max 8 (((badgeGeom w h).circleRadius : ℚ) * 0.40) * sinD (statAngle key)
       fontSize := max 12 ((jsRound (((badgeGeom w h).circleRadius : ℚ) * 0.3) : ℤ) : ℚ)
       text := formatStatForDisplay key (stats.get key) } : NumeralText)
      ∈ (buildOverlay cosD sinD w h quarters stats).numerals ∧
    DrawOp.fillText "#ffffff" (formatStatForDisplay key (stats.get key))
        (((badgeGeom w h).cx : ℚ) +
          max 8 (((badgeGeom w h).circleRadius : ℚ) * 0.45) * cosD (statAngle key))
        (((badgeGeom w h).cy : ℚ) +
          max 8 (((badgeGeom w h).circleRadius : ℚ) * 0.45) * sinD (statAngle key))
      ∈ (drawWarscrollCanvas cosD sinD dpr measure title w h bg stats).ops := by
  refine ⟨overlay_numeral_mem cosD sinD w h quarters stats key hne, ?_⟩
  unfold drawWarscrollCanvas
  simp only []
  rw [List.mem_append]
  exact Or.inr (export_numeral_mem cosD sinD measure title w h stats key hne)

/-- C9 witness: the amended statement at a concrete layout and stat. -/
theorem c9_witness :
    ({ key := .save, angle := statAngle .save
       x := ((badgeGeom 50 50).cx : ℚ) +
         max 8 (((badgeGeom 50 50).circleRadius : ℚ) * 0.40) * constOne (statAngle .save)
       y := ((badgeGeom 50 50).cy : ℚ) +
         max 8 (((badgeGeom 50 50).circleRadius : ℚ) * 0.40) * constZero (statAngle .save)
       fontSize := max 12 ((jsRound (((badgeGeom 50 50).circleRadius : ℚ) * 0.3) : ℤ) : ℚ)
       text := formatStatForDisplay .save (saveOnlyStats.get .save) } : NumeralText)
      ∈ (buildOverlay constOne constZero 50 50 sampleQuarters saveOnlyStats).numerals ∧
    DrawOp.fillText "#ffffff" (formatStatForDisplay .save (saveOnlyStats.get .save))
        (((badgeGeom 50 50).cx : ℚ) +
          max 8 (((badgeGeom 50 50).circleRadius : ℚ) * 0.45) * constOne (statAngle .save))
        (((badgeGeom 50 50).cy : ℚ) +
          max 8 (((badgeGeom 50 50).circleRadius : ℚ) * 0.45) * constZero (statAngle .save))
      ∈ (drawWarscrollCanvas constOne constZero 1 zeroMeasure "T" 50 50 none saveOnlyStats).ops :=
  c9_numeral_radius_divergence constOne constZero 1 zeroMeasure "T" 50 50
    sampleQuarters none saveOnlyStats .save (by decide)

/-! ## Claim C7: export fallback when the background is unavailable -/

/-- C7 counterexample: for a background image that loaded at 600 x 900
but cannot be drawn, the exporter does fall back to a white fill of the
full canvas, but the canvas has the natural size 600 x 900, not the
fallback size 800 x 1100 the claim asserts for every such invocation. -/
theorem c7_counterexample_broken_image_size :
    (exportOnSave constOne constZero 1 zeroMeasure "T" (some brokenImage) initialStats).width = 600 ∧
    (exportOnSave constOne constZero 1 zeroMeasure "T" (some brokenImage) initialStats).height = 900 ∧
    (exportOnSave constOne constZero 1 zeroMeasure "T" (some brokenImage) initialStats).ops.head? =
      some (DrawOp.fillRect "#ffffff" 0 0 600 900) ∧
    (600 : ℚ) ≠ 800 := by
  refine ⟨rfl, rfl, rfl, by norm_num⟩

theorem body_lines_mem (cosD sinD : ℚ → ℚ) (measure : String → ℚ)
    (title : String) (w h : ℚ) (stats : Stats) :
    ∀ line ∈ sampleLines stats, ∃ x y,
      DrawOp.fillText "#333" line x y ∈ restOps cosD sinD measure title w h stats := by
  intro line hline
  have hmap : line ∈ (sampleLines stats).enum.map Prod.snd := by
    rw [List.enum_map_snd]; exact hline
  obtain ⟨p, hp, hsnd⟩ := List.mem_map.mp hmap
  refine ⟨48, ?_, ?_⟩
  · exact (jsRound (36 + max 18 ((jsRound (w * 0.035) : ℤ) : ℚ) + 16) : ℚ) +
      (p.1 : ℚ) * (jsRound (max 12 ((jsRound (w * 0.02) : ℤ) : ℚ) * 1.5) : ℚ)
  unfold restOps
  simp only []
  rw [List.mem_append]
  right
  refine List.mem_map.mpr ⟨p, hp, ?_⟩
  rw [hsnd]

/-- C7 amended: whenever the background is absent or cannot be drawn, the
exporter paints a solid white fill of the full canvas as the first
operation and still renders the border, the wrapped title, every stat
numeral with a non-empty formatted value, and the body text; the export
size is the fallback 800 x 1100 exactly when the background is absent
(an undrawable loaded image keeps its natural size); the export function
is total, so it never aborts. -/
theorem c7_export_fallback (cosD sinD : ℚ → ℚ) (dpr : ℚ) (measure : String → ℚ)
    (title : String) (stats : Stats) (img : Option JsImage) (w h : ℚ)
    (hbg : img = none ∨ ∃ i, img = some i ∧ i.drawable = false) :
    (drawWarscrollCanvas cosD sinD dpr measure title w h img stats).ops =
      DrawOp.fillRect "#ffffff" 0 0 w h :: restOps cosD sinD measure title w h stats ∧
    DrawOp.strokeRect 12 12 (w - 24) (h - 24) ∈
      (drawWarscrollCanvas cosD sinD dpr measure title w h img stats).ops ∧
    (∃ s y, DrawOp.fillText "#111" s (w / 2) y ∈
      (drawWarscrollCanvas cosD sinD dpr measure title w h img stats).ops) ∧
    (∀ key, formatStatForDisplay key (stats.get key) ≠ "" →
      ∃ x y, DrawOp.fillText "#ffffff" (formatStatForDisplay key (stats.get key)) x y ∈
        (drawWarscrollCanvas cosD sinD dpr measure title w h img stats).ops) ∧
    (∀ line ∈ sampleLines stats, ∃ x y, DrawOp.fillText "#333" line x y ∈
      (drawWarscrollCanvas cosD sinD dpr measure title w h img stats).ops) ∧
    (img = none →
      (exportOnSave cosD sinD dpr measure title img stats).width = 800 ∧
      (exportOnSave cosD sinD dpr measure title img stats).height = 1100 ∧
      (exportOnSave cosD sinD dpr measure title img stats).ops =
        (drawWarscrollCanvas cosD sinD dpr measure title 800 1100 img stats).ops) := by
  have hops : (drawWarscrollCanvas cosD sinD dpr measure title w h img stats).ops =
      DrawOp.fillRect "#ffffff" 0 0 w h :: restOps cosD sinD measure title w h stats := by
    unfold drawWarscrollCanvas
    rcases hbg with rfl | ⟨i, rfl, hdraw⟩
    · simp
    · simp [hdraw]
  refine ⟨hops, ?_, ?_, ?_, ?_, ?_⟩
  · rw [hops]
    apply List.mem_cons_of_mem
    unfold restOps
    simp only []
    rw [List.mem_append]
    left
    rw [List.mem_append]
    left
    rw [List.mem_append]
    left
    rw [List.mem_append]
    left
    rw [List.mem_append]
    left
    rw [List.mem_append]
    left
    exact List.mem_singleton.mpr rfl
  · obtain ⟨s, yy, hm⟩ := wrapTextAux_mem measure (w / 2) (w - 80)
      (max 18 ((jsRound (w * 0.035) : ℤ) : ℚ) + 6) (title.splitOn " ") "" 36 true
    refine ⟨s, yy, ?_⟩
    rw [hops]
    apply List.mem_cons_of_mem
    unfold restOps
    simp only []
    rw [List.mem_append]
    left
    rw [List.mem_append]
    left
    rw [List.mem_append]
    left
    rw [List.mem_append]
    left
    rw [List.mem_append]
    left
    rw [List.mem_append]
    right
    exact hm
  · intro key hne
    refine ⟨((badgeGeom w h).cx : ℚ) +
        max 8 (((badgeGeom w h).circleRadius : ℚ) * 0.45) * cosD (statAngle key),
      ((badgeGeom w h).cy : ℚ) +
        max 8 (((badgeGeom w h).circleRadius : ℚ) * 0.45) * sinD (statAngle key), ?_⟩
    rw [hops]
    exact List.mem_cons_of_mem _ (export_numeral_mem cosD sinD measure title w h stats key hne)
  · intro line hline
    obtain ⟨x, y, hm⟩ := body_lines_mem cosD sinD measure title w h stats line hline
    refine ⟨x, y, ?_⟩
    rw [hops]
    exact List.mem_cons_of_mem _ hm
  · rintro rfl
    exact ⟨rfl, rfl, rfl⟩

/-- C7 witness: the amended statement at the absent background. -/
theorem c7_witness :
    (drawWarscrollCanvas constOne constZero 1 zeroMeasure "T" 800 1100 none initialStats).ops =
      DrawOp.fillRect "#ffffff" 0 0 800 1100 ::
        restOps constOne constZero zeroMeasure "T" 800 1100 initialStats ∧
    DrawOp.strokeRect 12 12 (800 - 24) (1100 - 24) ∈
      (drawWarscrollCanvas constOne constZero 1 zeroMeasure "T" 800 1100 none initialStats).ops ∧
    (∃ s y, DrawOp.fillText "#111" s (800 / 2) y ∈
      (drawWarscrollCanvas constOne constZero 1 zeroMeasure "T" 800 1100 none initialStats).ops) ∧
    (∀ key, formatStatForDisplay key (initialStats.get key) ≠ "" →
      ∃ x y, DrawOp.fillText "#ffffff" (formatStatForDisplay key (initialStats.get key)) x y ∈
        (drawWarscrollCanvas constOne constZero 1 zeroMeasure "T" 800 1100 none initialStats).ops) ∧
    (∀ line ∈ sampleLines initialStats, ∃ x y, DrawOp.fillText "#333" line x y ∈
      (drawWarscrollCanvas constOne constZero 1 zeroMeasure "T" 800 1100 none initialStats).ops) ∧
    ((none : Option JsImage) = none →
      (exportOnSave constOne constZero 1 zeroMeasure "T" none initialStats).width = 800 ∧
      (exportOnSave constOne constZero 1 zeroMeasure "T" none initialStats).height = 1100 ∧
      (exportOnSave constOne constZero 1 zeroMeasure "T" none initialStats).ops =
        (drawWarscrollCanvas constOne constZero 1 zeroMeasure "T" 800 1100 none initialStats).ops) :=
  c7_export_fallback constOne constZero 1 zeroMeasure "T" initialStats none 800 1100 (Or.inl rfl)

/-! ## Claim C3: shape of the formatted strings -/

theorem fracDigitsAux_dig (fuel : ℕ) :
    ∀ q : ℚ, 0 ≤ q → q < 1 → DigitList (fracDigitsAux fuel q) := by
  induction fuel with
  | zero =>
    intro q _ _ c hc
    simp [fracDigitsAux] at hc
  | succ fuel ih =>
    intro q h0 h1
    rw [fracDigitsAux]
    split
    · intro c hc; simp at hc
    · next hq =>
      intro c hc
      rw [List.mem_cons] at hc
      rcases hc with rfl | hc
      · refine ⟨⌊q * 10⌋.toNat, ?_, rfl⟩
        have hlt : ⌊q * 10⌋ < 10 := Int.floor_lt.mpr (by push_cast; linarith)
        have hge : 0 ≤ ⌊q * 10⌋ := Int.floor_nonneg.mpr (by positivity)
        omega
      · refine ih (q * 10 - (⌊q * 10⌋ : ℚ)) ?_ ?_ c hc
        · have := Int.fract_nonneg (q * 10)
          unfold Int.fract at this
          exact this
        · have := Int.fract_lt_one (q * 10)
          unfold Int.fract at this
          exact this

theorem digitList_reverse (l : List Char) (h : DigitList l) : DigitList l.reverse :=
  fun c hc => h c (List.mem_reverse.mp hc)

theorem digitList_not_ends_dot_zero (l : List Char) (h : DigitList l) :
    ¬∃ t, l = t ++ ['.', '0'] := by
  rintro ⟨t, rfl⟩
  obtain ⟨d, hd, hc⟩ := h '.' (by simp)
  exact absurd hc.symm (digitChar_ne_special d hd).2.2

theorem digitList_not_zero_dot_head (l : List Char) (h : DigitList l) :
    ¬∃ t, l = '0' :: '.' :: t := by
  rintro ⟨t, rfl⟩
  obtain ⟨d, hd, hc⟩ := h '.' (by simp)
  exact absurd hc.symm (digitChar_ne_special d hd).2.2

theorem dropZeros_cases (D : List Char) :
    ∀ G : List Char, DigitList G →
      ((G ++ '.' :: D).dropWhile (fun c => c = '0') = '.' :: D) ∨
      (∃ g t, (G ++ '.' :: D).dropWhile (fun c => c = '0') = g :: t ∧ g ≠ '.') := by
  intro G
  induction G with
  | nil =>
    intro _
    left
    rw [List.nil_append, List.dropWhile_cons, if_neg (by decide)]
  | cons g G ih =>
    intro hG
    rw [List.cons_append, List.dropWhile_cons]
    by_cases hg : g = '0'
    · rw [if_pos (by simp [hg])]
      exact ih (fun c hc => hG c (List.mem_cons_of_mem _ hc))
    · rw [if_neg (by simp [hg])]
      right
      obtain ⟨d, hd, rfl⟩ := hG _ (List.mem_cons_self _ _)
      exact ⟨digitChar d, G ++ '.' :: D, rfl, (digitChar_ne_special d hd).2.2⟩

theorem stripRev_not_zero_dot (G D : List Char) (hG : DigitList G) (hD : DigitList D) :
    ¬∃ t, stripDotZerosRev (G ++ '.' :: D) = '0' :: '.' :: t := by
  unfold stripDotZerosRev
  rcases dropZeros_cases D G hG with hcase | ⟨g, t0, hcase, hgdot⟩
  · rw [hcase]
    simp only []
    by_cases hzs : (G ++ '.' :: D).takeWhile (fun c => c = '0') = []
    · rw [if_neg (by simp [hzs])]
      cases G with
      | nil =>
        rintro ⟨t, ht⟩
        rw [List.nil_append] at ht
        exact absurd (List.head_eq_of_cons_eq ht) (by decide)
      | cons g G2 =>
        have hg : g ≠ '0' := by
          intro hg0
          rw [List.cons_append, List.takeWhile_cons, if_pos (by simp [hg0])] at hzs
          simp at hzs
        rintro ⟨t, ht⟩
        rw [List.cons_append] at ht
        exact absurd (List.head_eq_of_cons_eq ht) hg
    · rw [if_pos ⟨hzs, by trivial⟩]
      exact digitList_not_zero_dot_head D hD
  · rw [hcase]
    simp only []
    rw [if_neg (by rintro ⟨_, h⟩; exact hgdot h)]
    rintro ⟨t, ht⟩
    rw [ht, List.dropWhile_cons, if_pos (by decide), List.dropWhile_cons,
      if_neg (by decide)] at hcase
    exact absurd (List.head_eq_of_cons_eq hcase.symm) hgdot

theorem rev_ends_dot_zero_iff (l : List Char) :
    (∃ t, l.reverse = t ++ ['.', '0']) ↔ ∃ t, l = '0' :: '.' :: t := by
  constructor
  · rintro ⟨t, ht⟩
    refine ⟨t.reverse, ?_⟩
    have hr := congrArg List.reverse ht
    rw [List.reverse_reverse] at hr
    rw [hr]
    simp
  · rintro ⟨t, rfl⟩
    exact ⟨t.reverse, by simp⟩

theorem jsModOne_eq_zero_iff (q : ℚ) (h : 0 ≤ q) : jsMod q 1 = 0 ↔ q.den = 1 := by
  unfold jsMod ratTrunc
  rw [div_one, if_pos h]
  constructor
  · intro he
    have hq : q = (⌊q⌋ : ℚ) := by linarith
    rw [hq, Rat.den_intCast]
  · intro hd
    have hq : ((q.num : ℤ) : ℚ) = q := (Rat.den_eq_one_iff q).mp hd
    have hf : ⌊q⌋ = q.num := by
      rw [← hq, Int.floor_intCast, Rat.num_intCast]
    rw [hf, hq]
    ring

theorem jsNumToChars_int (q : ℚ) (h : 0 ≤ q) (hden : q.den = 1) :
    jsNumToChars q = natToDigits ⌊q⌋.toNat := by
  unfold jsNumToChars nnRatToChars
  rw [if_neg (not_lt.mpr h), if_pos hden, List.append_nil]

theorem jsNumToChars_frac (q : ℚ) (h : 0 ≤ q) (hden : q.den ≠ 1) :
    jsNumToChars q = natToDigits ⌊q⌋.toNat ++ '.' ::
      fracDigitsAux q.den (q - (⌊q⌋ : ℚ)) := by
  unfold jsNumToChars nnRatToChars
  rw [if_neg (not_lt.mpr h), if_neg hden]

theorem formatMove_shape (q : ℚ) (h : 0 ≤ q) :
    ∃ body : List Char, (formatStatForDisplay .move (.num q)).data = body ++ ['"'] ∧
      ¬∃ t, body = t ++ ['.', '0'] := by
  unfold formatStatForDisplay
  rw [if_neg (by simp)]
  simp only [jsNumber]
  rw [if_neg (not_lt.mpr h)]
  by_cases hint : jsMod q 1 = 0
  · rw [if_pos hint]
    have hden : q.den = 1 := (jsModOne_eq_zero_iff q h).mp hint
    refine ⟨jsNumToChars q, ?_, ?_⟩
    · unfold jsNumToString
      rw [String.data_append]
    · rw [jsNumToChars_int q h hden]
      exact digitList_not_ends_dot_zero _ (natToDigits_dig _)
  · rw [if_neg hint]
    have hden : q.den ≠ 1 := fun hd => hint ((jsModOne_eq_zero_iff q h).mpr hd)
    refine ⟨(stripDotZeros (jsNumToString q)).data, ?_, ?_⟩
    · rw [String.data_append]
    · unfold stripDotZeros jsNumToString
      rw [rev_ends_dot_zero_iff]
      have hjs : (String.mk (jsNumToChars q)).data.reverse =
          (fracDigitsAux q.den (q - (⌊q⌋ : ℚ))).reverse ++ '.' ::
            (natToDigits ⌊q⌋.toNat).reverse := by
        show (jsNumToChars q).reverse = _
        rw [jsNumToChars_frac q h hden, List.reverse_append, List.reverse_cons,
          List.append_assoc, List.singleton_append]
      rw [hjs]
      apply stripRev_not_zero_dot
      · apply digitList_reverse
        apply fracDigitsAux_dig
        · have := Int.fract_nonneg q
          unfold Int.fract at this
          exact this
        · have := Int.fract_lt_one q
          unfold Int.fract at this
          exact this
      · exact digitList_reverse _ (natToDigits_dig _)

theorem format_absent (k : StatKey) :
    formatStatForDisplay k .null = "" ∧ formatStatForDisplay k (.str "") = "" := by
  constructor <;> · unfold formatStatForDisplay; rw [if_pos (by simp)]

/-- C3: for every non-negative integer n, save formats as the decimal
digits of n followed by a plus sign, and health and control as the plain
decimal digits; for every non-negative number q, the move format is some
body followed by the double-quote character, and the body never ends in
a dot-zero (the trailing .0 is trimmed); an absent value (null or the
empty string) formats as the empty string for every stat kind; the
formatter is a total function, so it never throws. The conjunct on
jsNumToString identifies the decimal rendering used with the digit
string of n. -/
theorem c3_format_totality_and_shapes :
    (∀ n : ℕ, jsNumToString (n : ℚ) = String.mk (natToDigits n)) ∧
    (∀ n : ℕ, formatStatForDisplay .save (.num (n : ℚ)) = jsNumToString (n : ℚ) ++ "+") ∧
    (∀ n : ℕ, formatStatForDisplay .health (.num (n : ℚ)) = jsNumToString (n : ℚ) ∧
      formatStatForDisplay .control (.num (n : ℚ)) = jsNumToString (n : ℚ)) ∧
    (∀ q : ℚ, 0 ≤ q → ∃ body, (formatStatForDisplay .move (.num q)).data = body ++ ['"'] ∧
      ¬∃ t, body = t ++ ['.', '0']) ∧
    (∀ k, formatStatForDisplay k .null = "" ∧ formatStatForDisplay k (.str "") = "") ∧
    formatStatForDisplay .move (.num 6) = "6\"" ∧
    formatStatForDisplay .move (.num (13 / 2)) = "6.5\"" ∧
    formatStatForDisplay .save (.num 4) = "4+" := by
  refine ⟨?_, formatSave_nat, fun n => ⟨formatHealth_nat n, formatControl_nat n⟩,
    formatMove_shape, format_absent, by decide, by decide, by decide⟩
  intro n
  unfold jsNumToString
  rw [jsNumToChars_natCast]

/-- C3 witness: the move shape at the concrete fractional value 6.5. -/
theorem c3_witness :
    ∃ body, (formatStatForDisplay .move (.num (13 / 2))).data = body ++ ['"'] ∧
      ¬∃ t, body = t ++ ['.', '0'] :=
  c3_format_totality_and_shapes.2.2.2.1 (13 / 2) (by norm_num)

/-! ## Claim C10 -/

/-- C10: the four stats start as empty strings, and after any sequence of
input events every stat is either the empty string or a stored
non-negative integer (never fractional); a non-empty save value lies in
[1, 6]. -/
theorem c10_stat_state_invariant :
    (∀ k, initialStats.get k = JSVal.str "") ∧
    ∀ evs : List (StatKey × String), statsOk (evs.foldl statStep initialStats) := by
  refine ⟨fun k => by cases k <;> rfl, fun evs => statsOk_foldl evs initialStats statsOk_initial⟩

end Warscroll
